import Mathlib

/-!
Verification of the RPdb Go client library's persistence layer, model
predicates and scheduler against its natural-language specification.

The Go source is shallowly embedded: instants (`time.Time`) become `Int`
nanoseconds with a distinguished constant `dtZero` standing for Go's zero
`time.Time`; pointer cells become `Option`; fallible operations return
`Except`/`Option`; slice-mutating helpers are modelled as pure functions
that reproduce the exact effect of the Go code on the backing array,
including effects the code exhibits when return values are discarded.
-/

namespace RPdb

/-- Go's zero `time.Time` (January 1, year 1 UTC) in nanoseconds relative to
the Unix epoch.  `DateTime.IsZero()` in the source is a comparison with this
instant; all realistic wall-clock values are far greater. -/
def dtZero : Int := -62135596800000000000

/-- `DateTime.IsZero()` from models/time.go: the wrapped `time.Time` equals
the zero instant. -/
def isZeroDT (t : Int) : Bool := t == dtZero

/-- models/entry.go `ParameterAnyValue`: sentinel meaning "any non-null". -/
def ParameterAnyValue : String := "<#~NotNULL~Any~#>"

/-- models/time.go `NullString` (wrapper around sql.NullString). -/
structure NullString where
  valid : Bool
  string : String
deriving DecidableEq, Repr, Inhabited

/-- models/attribute.go `ParameterPreset`. -/
structure ParameterPreset where
  name : String
  shortName : String
  value : String
  sortOrder : Int
deriving DecidableEq, Repr, Inhabited

/-- models/attribute.go `AttributeParameter` (field `Type` is rendered
`typ`). -/
structure AttributeParameter where
  id : Int
  name : String
  position : Int
  typ : String
  forcePreset : Bool
  presets : List ParameterPreset
deriving DecidableEq, Repr, Inhabited

/-- models/attribute.go `AttributeExecResponse`. -/
structure AttributeExecResponse where
  enabled : Bool
  allowDelayedExecution : Bool
  defaultTimeout : Int
deriving DecidableEq, Repr, Inhabited

/-- models/attribute.go `Attribute` (rights enums omitted: no claim touches
them). -/
structure Attribute where
  id : Int
  name : String
  executeAlways : Bool
  noDb : Bool
  execResponse : AttributeExecResponse
  parameter : List AttributeParameter
  sortOrder : Int
deriving DecidableEq, Repr, Inhabited

/-- models/entry.go `EntryParameter`. -/
structure EntryParameter where
  parameterId : Int
  value : String
  preset : String
deriving DecidableEq, Repr, Inhabited

/-- models/entry.go `Entry`.  The Go struct holds `Attribute *Attribute`; in
the cache the pointer is always populated (a stub with only the id before
linking), so it is embedded by value (field
`Attribute` is rendered `attr`, `attribute` being reserved in Lean).  The `execution` field models the
`*struct{ WasExecuted atomic.Bool }` pointer cell: `none` is the nil pointer
of an entry that was never produced by `UnmarshalJSON`, `some b` an
initialized cell holding `b`.  Creation-only transport fields (offset,
offset pattern, keep-date, full-minutes, timeout) are never read by the
cached-entry operations spoken about by the claims and are omitted. -/
structure Entry where
  id : Int
  attr : Attribute
  dateTime : Int
  dateTimeExecution : Int
  parameters : List EntryParameter
  creator : Int
  execution : Option Bool
deriving DecidableEq, Repr, Inhabited

/-- models/entry.go `Entry.WasExecuted()`: nil cell logs and returns
false. -/
def Entry.wasExecuted (e : Entry) : Bool :=
  match e.execution with
  | some b => b
  | none => false

/-- models/entry.go `Entry.SetExecuted(executed)`: nil cell logs and leaves
the entry unchanged. -/
def Entry.setExecuted (e : Entry) (executed : Bool) : Entry :=
  match e.execution with
  | some _ => { e with execution := some executed }
  | none => e

/-- models/entry.go `Entry.IsPast(ignoreExecutionTime)`; `now` is passed
explicitly in place of `time.Now()`. -/
def Entry.isPast (e : Entry) (now : Int) (ignoreExecutionTime : Bool) : Bool :=
  if isZeroDT e.dateTime then false
  else
    decide (e.dateTime < now) &&
      (ignoreExecutionTime || isZeroDT e.dateTimeExecution ||
        decide (e.dateTimeExecution < now))

/-- models/entry.go `Entry.ShouldExecuteNow()`.  The Go code computes
`offset := time.Until(dateTime).Seconds()` as a float64 and tests
`offset <= 0.5 && offset >= -2`; at nanosecond granularity this is exactly
`dateTime - now <= 5*10^8 && dateTime - now >= -2*10^9` (both bounds are
exactly representable and float64 resolves every nanosecond near these
magnitudes). -/
def Entry.shouldExecuteNow (e : Entry) (now : Int) : Bool :=
  if e.wasExecuted then false
  else
    let dateTime := if !isZeroDT e.dateTimeExecution then e.dateTimeExecution else e.dateTime
    if isZeroDT dateTime then false
    else if e.attr.executeAlways && decide (dateTime < now) then true
    else decide (dateTime - now ≤ 500000000) && decide (-2000000000 ≤ dateTime - now)

/-- models/entry.go `Entry.GetExecutionTime(ignoreExecutionTime)`. -/
def Entry.getExecutionTime (e : Entry) (ignoreExecutionTime : Bool) : Int :=
  if ignoreExecutionTime || isZeroDT e.dateTimeExecution then e.dateTime
  else e.dateTimeExecution

/-- models/response_execution.go `EntryFilter` (`IgnoreExecutionDate` is the
untagged trailing int field). -/
structure EntryFilter where
  ids : List Int
  attributes : List Int
  parameters : Option (List NullString)
  creator : Int
  datePattern : String
  laterThan : String
  earlierThan : String
  oldDates : Bool
  ignoreEA : Bool
  ignoreEAAttribute : List Int
  maxEntries : Int
  executed : List Int
  ignoreExecutionDate : Int
deriving DecidableEq, Repr, Inhabited

/-- The Go zero value of `EntryFilter` (nil slices, empty strings, zero
ints, nil parameter pointer): the "empty filter". -/
def EntryFilter.zero : EntryFilter :=
  { ids := [], attributes := [], parameters := none, creator := 0,
    datePattern := "", laterThan := "", earlierThan := "", oldDates := false,
    ignoreEA := false, ignoreEAAttribute := [], maxEntries := 0,
    executed := [], ignoreExecutionDate := 0 }

/-- models/response_execution.go `EntryFilter.CanHandleLocally()`. -/
def EntryFilter.canHandleLocally (e : EntryFilter) : Bool :=
  e.datePattern == "" &&
  e.laterThan == "" &&
  e.earlierThan == "" &&
  !e.oldDates

/-- models/response_execution.go `EntryFilter.IsZero()`. -/
def EntryFilter.isZero (e : EntryFilter) : Bool :=
  e.ids.isEmpty &&
  e.attributes.isEmpty &&
  e.parameters.isNone &&
  e.creator == 0 &&
  e.datePattern == "" &&
  e.laterThan == "" &&
  e.earlierThan == "" &&
  !e.oldDates &&
  !e.ignoreEA &&
  e.ignoreEAAttribute.isEmpty &&
  e.maxEntries == 0 &&
  e.executed.isEmpty &&
  e.ignoreExecutionDate == 0

/-- `strings.EqualFold`, modelled as case-insensitive equality via simple
lower-casing (the claims never depend on exotic Unicode folding). -/
def eqFold (a b : String) : Bool := a.toLower == b.toLower

/-- The parameter-comparison loop inside `EntryFilter.DoesMatch`
(models/response_execution.go lines 171-203).  `i` is the running index of
the `for i, p := range ent.Parameters` loop; `some r` models an early
`return r` from `DoesMatch`, `none` falling through to the code after the
loop.  The `ent.Attribute != nil` conjunct of the source is always true
here because the embedded entry carries its attribute by value. -/
def matchParamsLoop (fps : List NullString) (attr : Attribute) :
    Nat → List EntryParameter → Option Bool
  | _, [] => none
  | i, p :: rest =>
    if i ≥ fps.length then none
    else
      let filterP := fps.getD i default
      if !filterP.valid || filterP.string == ParameterAnyValue then
        matchParamsLoop fps attr (i + 1) rest
      else if (p.value != "" && p.value == filterP.string) ||
              (p.preset != "" && eqFold p.preset filterP.string) then
        matchParamsLoop fps attr (i + 1) rest
      else if filterP.string == "" && p.preset == "" && p.value == "" then
        matchParamsLoop fps attr (i + 1) rest
      else if p.preset != "" && attr.parameter.length > i then
        match (attr.parameter.getD i default).presets.find?
            (fun app => eqFold app.name p.preset) with
        | some app => some (app.value == filterP.string)
        | none => some false
      else some false

/-- models/response_execution.go `EntryFilter.DoesMatch(ent)`; `now` is
passed explicitly in place of `time.Now()`. -/
def EntryFilter.doesMatch (f : EntryFilter) (now : Int) (ent : Entry) : Bool :=
  if !f.ids.isEmpty && !f.ids.any (fun i => i == ent.id) then false
  else if !f.attributes.isEmpty && !f.attributes.any (fun i => i == ent.attr.id) then false
  else
    match (match f.parameters with
           | some fps => matchParamsLoop fps ent.attr 0 ent.parameters
           | none => none) with
    | some r => r
    | none =>
      if f.creator != 0 && f.creator != ent.creator then false
      else
        let shouldIgnoreEA := f.ignoreEA || f.ignoreEAAttribute.any (fun a => a == ent.attr.id)
        if f.ignoreExecutionDate == 0 then
          !(decide (ent.dateTime < now) && decide (ent.dateTimeExecution < now) &&
            (!ent.attr.executeAlways || shouldIgnoreEA))
        else if f.ignoreExecutionDate == 1 then
          !(decide (ent.dateTime < now) && (!ent.attr.executeAlways || shouldIgnoreEA))
        else if f.ignoreExecutionDate == 2 then
          !(decide (ent.dateTimeExecution < now) && (!ent.attr.executeAlways || shouldIgnoreEA))
        else true

/-- pkg/utils `Remove(s, i)`, as seen by a caller that DISCARDS the return
value: `(*s)[i] = (*s)[len(*s)-1]` mutates the backing array in place, so
the caller's slice keeps its length with the last element copied into slot
`i`.  Callers only invoke it with `i < l.length`. -/
def goRemoveKeep {α : Type} [Inhabited α] (l : List α) (i : Nat) : List α :=
  l.set i (l.getLastD default)

/-- pkg/utils `Remove(s, i)` as returned: the mutated array truncated by
one (`return (*s)[:len(*s)-1]`). -/
def goRemove {α : Type} [Inhabited α] (l : List α) (i : Nat) : List α :=
  (goRemoveKeep l i).dropLast

/-- pkg/utils `Filter(a, b, comp)`: walks `a` in order; for each element
the FIRST match in the current `b` is removed from both sides (from `b` via
swap-`Remove`, so `b` loses its order); unmatched `a` elements are kept in
order.  Returns the final contents of `*a` and `*b`. -/
def goFilter {α β : Type} [Inhabited β] (comp : α → β → Bool) :
    List α → List β → List α × List β
  | [], b => ([], b)
  | x :: xs, b =>
    match b.findIdx? (comp x) with
    | some j => goFilter comp xs (goRemove b j)
    | none =>
      let r := goFilter comp xs b
      (x :: r.1, r.2)

/-- One step of the stable insertion sort used to model
`sort.SliceStable(p.data, less)` with `less i j = (dt i < dt j)`
(persistence/entry.go `addAndSortWithoutLock`): the new element is placed
before the first strictly later entry, after all equal ones. -/
def insertSortedEntry (e : Entry) : List Entry → List Entry
  | [] => [e]
  | x :: xs =>
    if e.dateTime < x.dateTime then e :: x :: xs else x :: insertSortedEntry e xs

/-- Stable sort by `date_time`.  A stable sort's output is uniquely
determined by the input order and the comparison, so this insertion sort
computes exactly what `sort.SliceStable` leaves in `p.data`. -/
def sortEntriesStable (l : List Entry) : List Entry :=
  l.foldl (fun acc e => insertSortedEntry e acc) []

/-- persistence/entry.go `addAndSortWithoutLock`: append then stable sort
by `DateTime.Compare == -1`. -/
def addAndSortWithoutLock (data entries : List Entry) : List Entry :=
  sortEntriesStable (data ++ entries)

/-- models `ErrorResponse` (the fields the persistence layer constructs). -/
structure ErrorResponse where
  id : String
  responseCode : Int
  message : String
deriving DecidableEq, Repr, Inhabited

/-- persistence/attribute.go `Persistence.GetAttribute(id)`: first cached
attribute with the id, else an ATTRIBUTE_NOT_FOUND error (`none`). -/
def getAttributePers (attrs : List Attribute) (id : Int) : Option Attribute :=
  attrs.find? (fun a => a.id == id)

/-- persistence/entry.go `linkAttribute(entry)`: resolve the entry's
attribute by id from the attribute cache; on error keep the stub and log. -/
def linkAttribute (attrs : List Attribute) (e : Entry) : Entry :=
  match getAttributePers attrs e.attr.id with
  | some a => { e with attr := a }
  | none => e

/-- persistence/entry.go `linkAttributes(entries)`. -/
def linkAttributes (attrs : List Attribute) (es : List Entry) : List Entry :=
  es.map (linkAttribute attrs)

/-- persistence/entry.go `Persistence.GetEntry(id)`: linear scan of the
cache; returns `(entry, nil)` on a hit and `(nil, ENTRY_NOT_FOUND)` on a
miss. -/
def getEntryPers (data : List Entry) (id : Int) : Option Entry × Option ErrorResponse :=
  match data.find? (fun e => e.id == id) with
  | some e => (some e, none)
  | none =>
    (none, some { id := "ENTRY_NOT_FOUND", responseCode := 404, message := "Entry was not found" })

/-- persistence/entry.go `DeleteEntry` lines 133-137: whether the API is
called, i.e. the value of `err2 == nil || ent == nil || !ent.Attribute.NoDb`
for `ent, err2 := p.GetEntry(id)` (short-circuit evaluation). -/
def deleteEntryContactsServer (data : List Entry) (id : Int) : Bool :=
  let r := getEntryPers data id
  r.2.isNone || r.1.isNone ||
    !(match r.1 with
      | some e => e.attr.noDb
      | none => true)

/-- persistence/entry.go `DeleteEntry` lines 143-151: the local removal
performed after a successful delete.  The source calls
`utils.Remove(&p.entry.data, i)` at the first index whose entry has the id
and DISCARDS the returned slice, so the cache keeps its length and slot `i`
now holds a copy of the last element; with no hit the cache is unchanged. -/
def deleteEntryLocalRemove (data : List Entry) (id : Int) : List Entry :=
  match data.findIdx? (fun e => e.id == id) with
  | some i => goRemoveKeep data i
  | none => data

/-- models/update.go `UpdateData[T]`. -/
structure UpdateData (T : Type) where
  deleted : List Int
  deletedPre : List T
  updated : List T
  created : List T
deriving DecidableEq, Repr, Inhabited

/-- models/update.go `Update` (field `Attribute` rendered `attr`). -/
structure Update where
  version : Int
  versionDate : Int
  entry : UpdateData Entry
  attr : UpdateData Attribute
deriving DecidableEq, Repr, Inhabited

/-- models/update.go `UpdateData.IsUpdate()`. -/
def UpdateData.isUpdate {T : Type} (up : UpdateData T) : Bool :=
  !up.created.isEmpty || !up.deleted.isEmpty || !up.updated.isEmpty

/-- persistence/entry.go `persistenceEntry.handleUpdate(upd)` — the
EntryCache `apply_update`.  Deleted ids are removed via `utils.Filter`
(order of the cache preserved); created entries are linked and appended
then stable-sorted, with NO id-collision check; updated entries' old
versions are removed via `utils.Filter` (which swap-removes from the cache
and compacts the matched-off elements out of the shared `upd.Updated`
backing array, whose ORIGINAL length is then reused by `addAndSort`), the
new versions linked and added sorted. -/
def handleUpdateEntries (attrs : List Attribute) (upd : UpdateData Entry)
    (data : List Entry) : List Entry :=
  let data1 :=
    if upd.deleted.length > 0 then
      (goFilter (fun (e : Entry) (i : Int) => e.id == i) data upd.deleted).1
    else data
  let data2 :=
    if upd.created.length > 0 then
      addAndSortWithoutLock data1 (linkAttributes attrs upd.created)
    else data1
  if upd.updated.length > 0 then
    let fr := goFilter (fun (u e : Entry) => u.id == e.id) upd.updated data2
    let updatedBacking := fr.1 ++ upd.updated.drop fr.1.length
    addAndSortWithoutLock fr.2 (linkAttributes attrs updatedBacking)
  else data2

/-- persistence/entry.go `Persistence.GetEntries(filter)`.  The transport
call of the non-local branch is passed in as `apiResult`.  The source's
final branch reads `rtc, err = p.Api.GetEntries(filter); if err != nil {
p.entry.linkAttributes(&rtc) }` — the re-link runs only on the ERROR path
(where `rtc` is nil), never on success. -/
def getEntriesPers (now : Int) (attrs : List Attribute) (data : List Entry)
    (filter : EntryFilter) (apiResult : Except ErrorResponse (List Entry)) :
    Except ErrorResponse (List Entry) :=
  if filter.isZero then .ok data
  else if filter.canHandleLocally && filter.executed.isEmpty then
    .ok (data.filter (fun e => filter.doesMatch now e))
  else
    match apiResult with
    | .ok rtc => .ok rtc
    | .error err => .error err

/-- persistence/ping.go `PersistenceUpdate.notifyForUpdates(update)`: for
every registered observer a task sends `*update` into its channel.  When
`update` is the nil pointer that dereference panics, so with at least one
observer the call crashes; with none the loop body never runs.  Observers
are represented by their count. -/
def notifyForUpdates (observerCount : Nat) (update : Option Update) :
    Except String (List Update) :=
  match update with
  | some u => .ok (List.replicate observerCount u)
  | none =>
    if observerCount == 0 then .ok []
    else .error "runtime error: invalid memory address or nil pointer dereference"

/-- persistence/ping.go `PersistenceUpdate` version state: `Version` and
`VersionDate` under the version lock. -/
structure VersionState where
  version : Int
  versionDate : Int
deriving DecidableEq, Repr, Inhabited

/-- models `WebSocketMessage` type tag. -/
inductive WSType where
  | update
  | execResponse
  | noDb
  | unknown
deriving DecidableEq, Repr, Inhabited

/-- models `WebSocketMessage` (field `Type` rendered `typ`); only the
fields the handler reads for the version bookkeeping are carried. -/
structure WSMessage where
  typ : WSType
  update : Update
deriving DecidableEq, Repr, Inhabited

/-- persistence/ping.go `Persistence.handleWebSocketMessage`, restricted to
its effect on the stored version state (lines 106-109): a message of type
`update` overwrites `Version`/`VersionDate` with the message's values,
unconditionally; other message types leave them untouched. -/
def handleMessageVersion (st : VersionState) (msg : WSMessage) : VersionState :=
  if msg.typ == WSType.update then
    { version := msg.update.version, versionDate := msg.update.versionDate }
  else st

/-- The stored version states observed while processing a message sequence,
starting from `init` (the state before the first message). -/
def versionTrace (init : VersionState) (msgs : List WSMessage) : List VersionState :=
  msgs.scanl handleMessageVersion init

/-- A list of integers is non-decreasing. -/
def nonDecreasingInt : List Int → Bool
  | [] => true
  | [_] => true
  | a :: b :: rest => decide (a ≤ b) && nonDecreasingInt (b :: rest)

/-- The scheduler's timer state: the `nextEntry` atomic and the pending
fire instant (`none` = timer stopped). -/
structure TimerState where
  nextEntryId : Int
  fire : Option Int
deriving DecidableEq, Repr, Inhabited

/-- part_002 `Execution.schedule()` lines 141-164, given the entry chosen
by `getNextEntryNormal`: with some `nextEntry`, store its id and arm the
timer at `dateTime := nextEntry.DateTime`, overridden by
`DateTimeExecution` exactly when `!WasExecuted() &&
!DateTimeExecution.IsZero() && DateTimeExecution.Before(DateTime) &&
DateTimeExecution.After(now)`; with none, stop the timer and store id 0. -/
def scheduleArm (now : Int) (nextEntry : Option Entry) : TimerState :=
  match nextEntry with
  | some ne =>
    let dateTime := ne.dateTime
    let dateTime :=
      if !ne.wasExecuted && !isZeroDT ne.dateTimeExecution &&
          decide (ne.dateTimeExecution < dateTime) && decide (now < ne.dateTimeExecution) then
        ne.dateTimeExecution
      else dateTime
    { nextEntryId := ne.id, fire := some dateTime }
  | none => { nextEntryId := 0, fire := none }

/-- Modelled from the spec: "compute `fires_at = effective_time(best)`
unless `!best.was_executed && best.date_time_execution is set &&
date_time_execution < date_time && date_time_execution > now`, in which
case use `date_time_execution`", with `effective_time` = date_time_execution
if set (and not ignored), else date_time.  Stated only to compare the
claim's wording with `scheduleArm`. -/
def scheduleArmSpecFire (now : Int) (best : Entry) : Int :=
  if !best.wasExecuted && !isZeroDT best.dateTimeExecution &&
      decide (best.dateTimeExecution < best.dateTime) && decide (now < best.dateTimeExecution) then
    best.dateTimeExecution
  else best.getExecutionTime false

/-- Modelled from the spec: "`should_execute_now(e)` = `!e.was_executed &&
( (e.attribute.execute_always && effective_time(e) < now) || ( -2.0s ≤
effective_time(e) - now ≤ +0.5s ) )`".  Stated only to compare the claim's
formula with `Entry.shouldExecuteNow`. -/
def shouldExecuteNowSpecFormula (now : Int) (e : Entry) : Bool :=
  let eff := if isZeroDT e.dateTimeExecution then e.dateTime else e.dateTimeExecution
  !e.wasExecuted &&
    ((e.attr.executeAlways && decide (eff < now)) ||
      (decide (-2000000000 ≤ eff - now) && decide (eff - now ≤ 500000000)))

/-- The I1 sortedness predicate: cached entries ascending by `date_time`. -/
def sortedByDate : List Entry → Bool
  | [] => true
  | [_] => true
  | a :: b :: rest => decide (a.dateTime ≤ b.dateTime) && sortedByDate (b :: rest)

/-! Sample values for concrete evaluations. -/

/-- A plain attribute (no `execute_always`, no `no_db`). -/
def attrDefault : Attribute :=
  { id := 1, name := "plain", executeAlways := false, noDb := false,
    execResponse := { enabled := false, allowDelayedExecution := false, defaultTimeout := 0 },
    parameter := [], sortOrder := 0 }

/-- An `execute_always` attribute. -/
def attrEA : Attribute := { attrDefault with id := 2, name := "ea", executeAlways := true }

/-- A `no_db` attribute. -/
def attrNoDb : Attribute := { attrDefault with id := 3, name := "nodb", noDb := true }

/-- An unlinked attribute stub with only the id, as entries arrive from the
API when `Java-Client` is set. -/
def attrStub (id : Int) : Attribute := { attrDefault with id := id, name := "" }

/-- Build a cached entry with the given id, attribute, `date_time`,
`date_time_execution` and execution cell; no parameters, creator 0. -/
def mkEntry (id : Int) (a : Attribute) (dt dte : Int) (ex : Option Bool) : Entry :=
  { id := id, attr := a, dateTime := dt, dateTimeExecution := dte,
    parameters := [], creator := 0, execution := ex }

/-- A websocket message of type `update` carrying only a version number. -/
def mkUpdMsg (v : Int) : WSMessage :=
  { typ := WSType.update,
    update := { version := v, versionDate := 0,
                entry := ⟨[], [], [], []⟩, attr := ⟨[], [], [], []⟩ } }

/-! ## Claim C1 -/

/-- C1: delete_entry is claimed NOT to contact the server for entries whose
attribute has no_db = true.  In the source the guard `err2 == nil || ent ==
nil || !ent.Attribute.NoDb` is a tautology — `GetEntry` returns a nil error
exactly when it returns an entry — so `DeleteEntry` calls the API for EVERY
id, no_db or not: the claim's exemption never happens. -/
theorem C1_delete_entry_always_contacts_server (data : List Entry) (id : Int) :
    deleteEntryContactsServer data id = true := by
  unfold deleteEntryContactsServer getEntryPers
  cases h : data.find? (fun e => e.id == id) <;> simp

/-! ## Claim C2 -/

/-- C2: the cache is claimed to stay sorted by `date_time` after
delete_entry.  `DeleteEntry` calls `utils.Remove` (swap the last element
into the removed slot) and discards its return value, so on the sorted
cache `[e1@100, e2@200, e3@300]` deleting id 1 leaves `[e3, e2, e3]` —
unsorted, with the last entry duplicated and the length unchanged. -/
theorem C2_delete_entry_breaks_sortedness :
    sortedByDate
        [mkEntry 1 attrDefault 100 100 (some false),
         mkEntry 2 attrDefault 200 200 (some false),
         mkEntry 3 attrDefault 300 300 (some false)] = true ∧
    deleteEntryLocalRemove
        [mkEntry 1 attrDefault 100 100 (some false),
         mkEntry 2 attrDefault 200 200 (some false),
         mkEntry 3 attrDefault 300 300 (some false)] 1 =
      [mkEntry 3 attrDefault 300 300 (some false),
       mkEntry 2 attrDefault 200 200 (some false),
       mkEntry 3 attrDefault 300 300 (some false)] ∧
    sortedByDate
        (deleteEntryLocalRemove
          [mkEntry 1 attrDefault 100 100 (some false),
           mkEntry 2 attrDefault 200 200 (some false),
           mkEntry 3 attrDefault 300 300 (some false)] 1) = false :=
  ⟨rfl, rfl, rfl⟩

/-! ## Claim C3 -/

/-- C3: for a filter that is not locally handleable, `GetEntries` is claimed
to re-link the attributes of a successful transport result.  The source
re-links only when `err != nil`: with a `later_than` filter and a transport
success carrying an entry with an unlinked attribute stub, the entry is
returned with the stub untouched even though the attribute cache could
resolve it. -/
theorem C3_get_entries_success_is_not_relinked :
    ({ EntryFilter.zero with laterThan := "2030-01-01T00:00:00" } : EntryFilter).isZero = false ∧
    ({ EntryFilter.zero with laterThan := "2030-01-01T00:00:00" } : EntryFilter).canHandleLocally = false ∧
    getEntriesPers 0 [{ attrDefault with id := 3, name := "linked" }] []
        { EntryFilter.zero with laterThan := "2030-01-01T00:00:00" }
        (.ok [mkEntry 7 (attrStub 3) 100 100 (some false)]) =
      .ok [mkEntry 7 (attrStub 3) 100 100 (some false)] ∧
    linkAttribute [{ attrDefault with id := 3, name := "linked" }]
        (mkEntry 7 (attrStub 3) 100 100 (some false)) ≠
      mkEntry 7 (attrStub 3) 100 100 (some false) := by
  refine ⟨rfl, rfl, rfl, ?_⟩
  decide

/-! ## Claim C5 -/

/-- C5: `notify(nil)` is claimed to complete without crashing in every bus
state, including with registered observers.  Each observer's send task
evaluates `*update`; with `update == nil` that is a nil-pointer dereference,
so one registered observer makes the call panic — only the observer-free
state (as during `Start()`'s initial load) survives it. -/
theorem C5_notify_nil_panics_with_observer :
    notifyForUpdates 1 none =
      .error "runtime error: invalid memory address or nil pointer dereference" ∧
    notifyForUpdates 0 none = .ok [] :=
  ⟨rfl, rfl⟩

/-! ## Claim C10 -/

/-- C10: for an entry whose execution cell was never initialized (nil
pointer), `WasExecuted()` returns false and `SetExecuted(b)` leaves the
entry unchanged, for any `b`; both are total functions in the model, as
both nil-checks guard the dereference in the source. -/
theorem C10_uninitialized_execution_cell (e : Entry) (b : Bool)
    (h : e.execution = none) :
    e.wasExecuted = false ∧ e.setExecuted b = e := by
  constructor
  · simp [Entry.wasExecuted, h]
  · simp [Entry.setExecuted, h]

/-- Witness for C10 at a concrete hand-constructed entry. -/
theorem C10_uninitialized_execution_cell_witness :
    (mkEntry 4 attrDefault 100 100 none).wasExecuted = false ∧
    (mkEntry 4 attrDefault 100 100 none).setExecuted true = mkEntry 4 attrDefault 100 100 none :=
  C10_uninitialized_execution_cell (mkEntry 4 attrDefault 100 100 none) true rfl

/-! ## Claim C6 -/

/-- C6 counterexample: the claim says the base fire time is
`effective_time(best)`.  The source uses `best.DateTime` as the base: for a
not-yet-executed entry with `date_time = 10` and `date_time_execution = 20`
(execution time set but LATER than the date), at `now = 0` the timer is
armed at 10 while the claim's formula gives 20. -/
theorem C6_counterexample :
    (scheduleArm 0 (some (mkEntry 6 attrDefault 10 20 (some false)))).fire = some 10 ∧
    scheduleArmSpecFire 0 (mkEntry 6 attrDefault 10 20 (some false)) = 20 ∧
    (scheduleArm 0 (some (mkEntry 6 attrDefault 10 20 (some false)))).fire ≠
      some (scheduleArmSpecFire 0 (mkEntry 6 attrDefault 10 20 (some false))) := by
  refine ⟨rfl, rfl, by decide⟩

/-- C6 amended: the fire time equals `best.date_time` — not the effective
time — except when best is not yet executed, its `date_time_execution` is
set, earlier than its `date_time` and after now, in which case it is
`date_time_execution`; with no best entry the timer is stopped (no fire
time pending) and the next-entry id cleared. -/
theorem C6_timer_arming (now : Int) (e : Entry) :
    (scheduleArm now (some e)).nextEntryId = e.id ∧
    (¬(e.wasExecuted = false ∧ isZeroDT e.dateTimeExecution = false ∧
        e.dateTimeExecution < e.dateTime ∧ now < e.dateTimeExecution) →
      (scheduleArm now (some e)).fire = some e.dateTime) ∧
    ((e.wasExecuted = false ∧ isZeroDT e.dateTimeExecution = false ∧
        e.dateTimeExecution < e.dateTime ∧ now < e.dateTimeExecution) →
      (scheduleArm now (some e)).fire = some e.dateTimeExecution) ∧
    scheduleArm now none = { nextEntryId := 0, fire := none } := by
  refine ⟨rfl, ?_, ?_, rfl⟩ <;>
    cases hW : e.wasExecuted <;> cases hZ : isZeroDT e.dateTimeExecution <;>
      by_cases h1 : e.dateTimeExecution < e.dateTime <;>
      by_cases h2 : now < e.dateTimeExecution <;>
      simp [scheduleArm, hW, hZ, h1, h2]

/-- Witness for C6 (the amended theorem has hypotheses in its inner
implications): at `now = 0`, an entry with `date_time = 100`,
`date_time_execution = 20`, not executed, satisfies the exception and is
armed at 20; one with `date_time_execution = 200 > date_time` fails it and
is armed at its `date_time`. -/
theorem C6_timer_arming_witness :
    (scheduleArm 0 (some (mkEntry 6 attrDefault 100 20 (some false)))).fire = some 20 ∧
    (scheduleArm 0 (some (mkEntry 6 attrDefault 100 200 (some false)))).fire = some 100 :=
  ⟨(C6_timer_arming 0 (mkEntry 6 attrDefault 100 20 (some false))).2.2.1 (by decide),
   (C6_timer_arming 0 (mkEntry 6 attrDefault 100 200 (some false))).2.1 (by decide)⟩

/-! ## Claim C7 -/

/-- C7 counterexample: the handler stores each update message's version
unconditionally, so a socket delivery of version 2 followed by version 1
makes the stored version DECREASE: the trace of stored versions is
[0, 2, 1], which is not non-decreasing. -/
theorem C7_counterexample :
    (versionTrace { version := 0, versionDate := 0 } [mkUpdMsg 2, mkUpdMsg 1]).map
        VersionState.version = [0, 2, 1] ∧
    nonDecreasingInt
        ((versionTrace { version := 0, versionDate := 0 } [mkUpdMsg 2, mkUpdMsg 1]).map
          VersionState.version) = false :=
  ⟨rfl, rfl⟩

/-- Any trace of states starts with the initial state. -/
theorem versionTrace_head_cons (st : VersionState) (ms : List WSMessage) :
    ∃ rest, versionTrace st ms = st :: rest := by
  cases ms <;> exact ⟨_, rfl⟩

/-- C7 amended: after each message of type `update` the stored version
equals that message's version (other types leave it unchanged), so the
stored version is monotonically non-decreasing across every message
sequence whose update-message versions are non-decreasing and bounded below
by the initial stored version. -/
theorem C7_version_nondecreasing_for_nondecreasing_deliveries
    (init : VersionState) (msgs : List WSMessage)
    (h : nonDecreasingInt (init.version :: msgs.filterMap
          (fun m => if m.typ == WSType.update then some m.update.version else none)) = true) :
    nonDecreasingInt ((versionTrace init msgs).map VersionState.version) = true := by
  induction msgs generalizing init with
  | nil => rfl
  | cons m ms ih =>
    obtain ⟨rest, hrest⟩ := versionTrace_head_cons (handleMessageVersion init m) ms
    have htr : versionTrace init (m :: ms) =
        init :: versionTrace (handleMessageVersion init m) ms := rfl
    rw [htr, List.map_cons, hrest, List.map_cons]
    by_cases hm : m.typ = WSType.update
    · have hst : handleMessageVersion init m =
          { version := m.update.version, versionDate := m.update.versionDate } := by
        simp [handleMessageVersion, hm]
      have hfm : (m :: ms).filterMap
            (fun m => if m.typ == WSType.update then some m.update.version else none) =
          m.update.version :: ms.filterMap
            (fun m => if m.typ == WSType.update then some m.update.version else none) := by
        simp [List.filterMap_cons, hm]
      rw [hfm] at h
      have h' : init.version ≤ m.update.version ∧
          nonDecreasingInt (m.update.version :: ms.filterMap
            (fun m => if m.typ == WSType.update then some m.update.version else none)) = true := by
        simpa [nonDecreasingInt, Bool.and_eq_true, decide_eq_true_eq] using h
      have hrec : nonDecreasingInt
          (((handleMessageVersion init m).version :: rest.map VersionState.version)) = true := by
        rw [← List.map_cons, ← hrest]
        exact ih (handleMessageVersion init m) (by rw [hst]; exact h'.2)
      show (decide (init.version ≤ (handleMessageVersion init m).version) &&
        nonDecreasingInt ((handleMessageVersion init m).version ::
          rest.map VersionState.version)) = true
      rw [hrec, hst]
      simpa using h'.1
    · have hst : handleMessageVersion init m = init := by
        simp [handleMessageVersion, hm]
      have hfm : (m :: ms).filterMap
            (fun m => if m.typ == WSType.update then some m.update.version else none) =
          ms.filterMap
            (fun m => if m.typ == WSType.update then some m.update.version else none) := by
        simp [List.filterMap_cons, hm]
      rw [hfm] at h
      have hrec : nonDecreasingInt
          (((handleMessageVersion init m).version :: rest.map VersionState.version)) = true := by
        rw [← List.map_cons, ← hrest]
        exact ih (handleMessageVersion init m) (by rw [hst]; exact h)
      show (decide (init.version ≤ (handleMessageVersion init m).version) &&
        nonDecreasingInt ((handleMessageVersion init m).version ::
          rest.map VersionState.version)) = true
      rw [hrec, hst]
      simp

/-- Witness for C7: deliveries with versions 1 then 2 from initial version
1 keep the stored version non-decreasing. -/
theorem C7_version_nondecreasing_witness :
    nonDecreasingInt ((versionTrace { version := 1, versionDate := 0 }
      [mkUpdMsg 1, mkUpdMsg 2]).map VersionState.version) = true :=
  C7_version_nondecreasing_for_nondecreasing_deliveries
    { version := 1, versionDate := 0 } [mkUpdMsg 1, mkUpdMsg 2] (by decide)

/-! ## Claim C8 -/

/-- C8 counterexample: the empty (zero) filter does NOT match every entry:
an entry whose `date_time` and `date_time_execution` both lie before now
and whose attribute lacks `execute_always` is rejected by the
`IgnoreExecutionDate == 0` date guard of `DoesMatch`. -/
theorem C8_counterexample :
    EntryFilter.zero.doesMatch 0 (mkEntry 8 attrDefault (-1) (-1) (some false)) = false :=
  rfl

/-- C8 amended: the zero filter matches exactly the entries that survive
the default date guard — everything except entries with both date fields
before now and no `execute_always` on their attribute. -/
theorem C8_zero_filter_match (now : Int) (ent : Entry) :
    EntryFilter.zero.doesMatch now ent =
      !(decide (ent.dateTime < now) && decide (ent.dateTimeExecution < now) &&
        !ent.attr.executeAlways) := by
  simp [EntryFilter.doesMatch, EntryFilter.zero]

/-! ## Claim C9 -/

/-- C9 counterexample: the claim's formula omits the source's zero-date
guard.  For a not-executed entry of an `execute_always` attribute with both
date fields unset (the zero instant), `ShouldExecuteNow` returns false
while the claimed formula yields true (the zero instant is before now). -/
theorem C9_counterexample :
    (mkEntry 9 attrEA dtZero dtZero (some false)).shouldExecuteNow 0 = false ∧
    shouldExecuteNowSpecFormula 0 (mkEntry 9 attrEA dtZero dtZero (some false)) = true ∧
    (mkEntry 9 attrEA dtZero dtZero (some false)).shouldExecuteNow 0 ≠
      shouldExecuteNowSpecFormula 0 (mkEntry 9 attrEA dtZero dtZero (some false)) := by
  refine ⟨rfl, rfl, by decide⟩

/-- C9 amended: `should_execute_now` equals the claimed formula GUARDED by
the effective time being set: it holds exactly when the entry was not
executed, its effective time (`date_time_execution` if set, else
`date_time`) is not the zero instant, and either `execute_always` with the
effective time before now, or the effective time within [-2.0s, +0.5s] of
now.  The claim's two concrete window instances hold: `date_time = now +
0.5s` (execution date unset) gives true, `date_time = now - 2.5s` gives
false. -/
theorem C9_should_execute_now_characterization (now : Int) (e : Entry) :
    (e.shouldExecuteNow now =
      (!isZeroDT (if isZeroDT e.dateTimeExecution then e.dateTime else e.dateTimeExecution) &&
        shouldExecuteNowSpecFormula now e)) ∧
    (mkEntry 1 attrDefault 500000000 dtZero (some false)).shouldExecuteNow 0 = true ∧
    (mkEntry 1 attrDefault (-2500000000) dtZero (some false)).shouldExecuteNow 0 = false := by
  refine ⟨?_, rfl, rfl⟩
  cases hW : e.wasExecuted <;> cases hZ : isZeroDT e.dateTimeExecution <;>
    cases hEA : e.attr.executeAlways <;>
    simp [Entry.shouldExecuteNow, shouldExecuteNowSpecFormula, hW, hZ, hEA, Bool.and_comm]

/-! ## Claim C4

Supporting lemmas about the embedded slice helpers (`goRemove`,
`goFilter`) and the stable sort, used to settle idempotence of
`apply_update`. -/

/-- For a non-empty list `getLastD` is the last element, whatever the
default. -/
theorem getLastD_of_ne_nil {α : Type} (l : List α) (h : l ≠ []) (d : α) :
    l.getLastD d = l.getLast h := by
  cases l with
  | nil => exact absurd rfl h
  | cons a l => rw [List.getLastD_cons, List.getLast_eq_getLastD]

/-- Swap-removal at a valid index is a permutation of ordinary removal. -/
theorem goRemove_perm {α : Type} [Inhabited α] :
    ∀ (l : List α) (i : Nat), i < l.length → List.Perm (goRemove l i) (l.eraseIdx i)
  | [], i, h => by simp at h
  | x :: xs, 0, _ => by
    cases xs with
    | nil => simp [goRemove, goRemoveKeep]
    | cons y ys =>
      have hne : (y :: ys) ≠ [] := List.cons_ne_nil _ _
      have h1 : goRemoveKeep (x :: y :: ys) 0 = (y :: ys).getLast hne :: y :: ys := by
        unfold goRemoveKeep
        rw [List.getLastD_cons, getLastD_of_ne_nil (y :: ys) hne x, List.set_cons_zero]
      unfold goRemove
      rw [h1, List.dropLast_cons_of_ne_nil hne, List.eraseIdx_zero]
      have hperm : List.Perm ((y :: ys).getLast hne :: (y :: ys).dropLast)
          ((y :: ys).dropLast ++ [(y :: ys).getLast hne]) :=
        (List.perm_append_singleton _ _).symm
      have hconcat : (y :: ys).dropLast ++ [(y :: ys).getLast hne] = y :: ys :=
        List.dropLast_concat_getLast hne
      rw [hconcat] at hperm
      exact hperm
  | x :: xs, (j + 1), h => by
    have hj : j < xs.length := Nat.lt_of_succ_lt_succ h
    have hxs : xs ≠ [] := by
      intro he
      rw [he] at hj
      simp at hj
    have hkeep : goRemoveKeep (x :: xs) (j + 1) = x :: goRemoveKeep xs j := by
      unfold goRemoveKeep
      rw [List.set_cons_succ, List.getLastD_cons, getLastD_of_ne_nil xs hxs x,
        getLastD_of_ne_nil xs hxs default]
    have hset : goRemoveKeep xs j ≠ [] := by
      intro he
      have := congrArg List.length he
      simp only [goRemoveKeep, List.length_set, List.length_nil] at this
      rw [this] at hj
      simp at hj
    have hdrop : goRemove (x :: xs) (j + 1) = x :: goRemove xs j := by
      unfold goRemove
      rw [hkeep, List.dropLast_cons_of_ne_nil hset]
    rw [hdrop, List.eraseIdx_cons_succ]
    exact (goRemove_perm xs j hj).cons x

/-- A list is a permutation of the element at any valid index consed onto
the remainder after removing that index. -/
theorem perm_get_cons_eraseIdx {α : Type} :
    ∀ (l : List α) (i : Nat) (h : i < l.length), List.Perm l (l.get ⟨i, h⟩ :: l.eraseIdx i)
  | x :: xs, 0, _ => by simp
  | x :: xs, (j + 1), h => by
    have hj : j < xs.length := Nat.lt_of_succ_lt_succ h
    have step : List.Perm (x :: xs) (x :: (xs.get ⟨j, hj⟩ :: xs.eraseIdx j)) :=
      (perm_get_cons_eraseIdx xs j hj).cons x
    exact step.trans (List.Perm.swap _ _ _)

/-- Removing an index keeps membership of every other value. -/
theorem mem_eraseIdx_iff_of_ne {α : Type} (l : List α) (i : Nat) (h : i < l.length)
    (a : α) (hne : a ≠ l.get ⟨i, h⟩) : a ∈ l.eraseIdx i ↔ a ∈ l := by
  constructor
  · exact List.mem_of_mem_eraseIdx
  · intro ha
    have := (perm_get_cons_eraseIdx l i h).mem_iff.mp ha
    rcases List.mem_cons.mp this with heq | hmem
    · exact absurd heq hne
    · exact hmem

/-- Linking never changes an entry's id. -/
theorem linkAttribute_id (attrs : List Attribute) (e : Entry) :
    (linkAttribute attrs e).id = e.id := by
  unfold linkAttribute
  split <;> rfl

/-- Linking never changes an entry's `date_time`. -/
theorem linkAttribute_dateTime (attrs : List Attribute) (e : Entry) :
    (linkAttribute attrs e).dateTime = e.dateTime := by
  unfold linkAttribute
  split <;> rfl

/-- Linking a list keeps the id sequence. -/
theorem linkAttributes_map_id (attrs : List Attribute) (l : List Entry) :
    (linkAttributes attrs l).map Entry.id = l.map Entry.id := by
  induction l with
  | nil => rfl
  | cons e l ih =>
    simp only [linkAttributes, List.map_cons] at ih ⊢
    rw [linkAttribute_id, ih]

/-- Linking a list keeps the `date_time` sequence. -/
theorem linkAttributes_map_dateTime (attrs : List Attribute) (l : List Entry) :
    (linkAttributes attrs l).map Entry.dateTime = l.map Entry.dateTime := by
  induction l with
  | nil => rfl
  | cons e l ih =>
    simp only [linkAttributes, List.map_cons] at ih ⊢
    rw [linkAttribute_dateTime, ih]

/-- The deleted-ids pass of `handleUpdate`: when the cached ids are
pairwise distinct, `utils.Filter` keeps exactly the entries whose id is not
among the deleted ids, in cache order. -/
theorem goFilter_deleted_fst (data : List Entry) :
    ∀ (D : List Int), (data.map Entry.id).Nodup →
    (goFilter (fun (e : Entry) (i : Int) => e.id == i) data D).1 =
      data.filter (fun e => !(decide (e.id ∈ D))) := by
  induction data with
  | nil => intro D _; rfl
  | cons x xs ih =>
    intro D hids
    rw [List.map_cons, List.nodup_cons] at hids
    obtain ⟨hx, hxs⟩ := hids
    cases hfind : D.findIdx? (fun i => x.id == i) with
    | none =>
      have hxnotin : x.id ∉ D := by
        rw [List.findIdx?_eq_none_iff] at hfind
        intro hmem
        have := hfind x.id hmem
        simp at this
      simp only [goFilter, hfind, List.filter_cons]
      have hpred : (!(decide (x.id ∈ D))) = true := by simp [hxnotin]
      rw [hpred, ih D hxs]
      simp
    | some j =>
      rw [List.findIdx?_eq_some_iff_getElem] at hfind
      obtain ⟨hjlt, hpj, _⟩ := hfind
      have hDj : D.get ⟨j, hjlt⟩ = x.id := by
        have := hpj
        simp only [beq_iff_eq] at this
        exact this.symm
      have hxin : x.id ∈ D := by
        rw [← hDj]
        exact D.get_mem j hjlt
      have hfind' : D.findIdx? (fun i => x.id == i) = some j := by
        rw [List.findIdx?_eq_some_iff_getElem]
        exact ⟨hjlt, hpj, by intro k hk; simpa using (‹∀ k (hk : k < j), ¬((fun i => x.id == i) (D.get ⟨k, Nat.lt_trans hk hjlt⟩)) = true› k hk)⟩
      simp only [goFilter, hfind', List.filter_cons]
      have hpred : (!(decide (x.id ∈ D))) = false := by simp [hxin]
      rw [hpred, ih (goRemove D j) hxs]
      apply List.filter_congr
      intro e he
      have hneq : e.id ≠ x.id := by
        intro hcontra
        exact hx (hcontra ▸ List.mem_map_of_mem Entry.id he)
      have hmem : e.id ∈ goRemove D j ↔ e.id ∈ D := by
        rw [(goRemove_perm D j hjlt).mem_iff]
        exact mem_eraseIdx_iff_of_ne D j hjlt e.id (by rw [hDj]; exact hneq)
      simp [hmem]

/-- The updated-entries pass of `handleUpdate`: when the update's ids and
the cache's ids are each pairwise distinct and every updated id is present
in the cache, `utils.Filter` matches every updated entry off (`fst = []`,
so the shared backing of the update list is untouched) and leaves the cache
minus the entries carrying updated ids, up to order. -/
theorem goFilter_updated_all_match :
    ∀ (U data : List Entry),
    ((U.map Entry.id).Nodup) → ((data.map Entry.id).Nodup) →
    (∀ u ∈ U, ∃ e ∈ data, e.id = u.id) →
    (goFilter (fun (u e : Entry) => u.id == e.id) U data).1 = [] ∧
    List.Perm (goFilter (fun (u e : Entry) => u.id == e.id) U data).2
      (data.filter (fun e => !(decide (e.id ∈ U.map Entry.id)))) := by
  intro U
  induction U with
  | nil =>
    intro data _ _ _
    constructor
    · rfl
    · have : data.filter (fun e => !(decide (e.id ∈ ([] : List Entry).map Entry.id))) = data := by
        rw [List.filter_eq_self]
        intro a _
        simp
      rw [this]
      exact List.Perm.refl _
  | cons u us ih =>
    intro data hU hdata hall
    rw [List.map_cons, List.nodup_cons] at hU
    obtain ⟨hu, hus⟩ := hU
    obtain ⟨e, he, heid⟩ := hall u (List.mem_cons_self u us)
    have hex : ∃ x, x ∈ data ∧ (u.id == x.id) = true := ⟨e, he, by simp [heid]⟩
    have hfind := List.findIdx?_eq_some_of_exists hex
    set j := data.findIdx (fun e => u.id == e.id) with hj
    rw [List.findIdx?_eq_some_iff_getElem] at hfind
    obtain ⟨hjlt, hpj, _⟩ := hfind
    have hfind' : data.findIdx? (fun e => u.id == e.id) = some j :=
      List.findIdx?_eq_some_of_exists hex
    have hDj : (data.get ⟨j, hjlt⟩).id = u.id := by
      have := hpj
      simp only [beq_iff_eq] at this
      exact this.symm
    -- the permutation data ~ data[j] :: eraseIdx data j, mapped to ids
    have hpermj := perm_get_cons_eraseIdx data j hjlt
    have hmapperm : List.Perm (data.map Entry.id)
        (u.id :: (data.eraseIdx j).map Entry.id) := by
      have := hpermj.map Entry.id
      rw [List.map_cons, hDj] at this
      exact this
    have hnodup' : u.id ∉ (data.eraseIdx j).map Entry.id ∧
        ((data.eraseIdx j).map Entry.id).Nodup := by
      have := (hmapperm.nodup_iff).mp hdata
      rw [List.nodup_cons] at this
      exact this
    have hremperm := goRemove_perm data j hjlt
    have hremids : ((goRemove data j).map Entry.id).Nodup := by
      rw [(hremperm.map Entry.id).nodup_iff]
      exact hnodup'.2
    have hall' : ∀ u' ∈ us, ∃ e' ∈ goRemove data j, e'.id = u'.id := by
      intro u' hu'
      obtain ⟨e', he', hid'⟩ := hall u' (List.mem_cons_of_mem u hu')
      have hne : e' ≠ data.get ⟨j, hjlt⟩ := by
        intro hcontra
        apply hu
        have hidq : u.id = u'.id := by
          rw [← hDj, ← hcontra]
          exact hid'
        rw [hidq]
        exact List.mem_map_of_mem Entry.id hu'
      refine ⟨e', ?_, hid'⟩
      rw [hremperm.mem_iff]
      exact (mem_eraseIdx_iff_of_ne data j hjlt e' hne).mpr he'
    obtain ⟨ihfst, ihsnd⟩ := ih (goRemove data j) hus hremids hall'
    constructor
    · simp only [goFilter, hfind']
      exact ihfst
    · simp only [goFilter, hfind']
      -- ihsnd : snd ~ (goRemove data j).filter (∉ us ids)
      have step1 : List.Perm (goFilter (fun (u e : Entry) => u.id == e.id) us (goRemove data j)).2
          ((data.eraseIdx j).filter (fun e => !(decide (e.id ∈ us.map Entry.id)))) :=
        ihsnd.trans (hremperm.filter _)
      -- relate to data.filter (∉ (u :: us) ids)
      have hfilter_cong : (data.eraseIdx j).filter
            (fun e => !(decide (e.id ∈ us.map Entry.id))) =
          (data.eraseIdx j).filter
            (fun e => !(decide (e.id ∈ (u :: us).map Entry.id))) := by
        apply List.filter_congr
        intro e'' he''
        have : e''.id ≠ u.id := by
          intro hcontra
          apply hnodup'.1
          rw [← hcontra]
          exact List.mem_map_of_mem Entry.id he''
        simp [List.mem_cons, this]
      have step2 : List.Perm (data.filter
            (fun e => !(decide (e.id ∈ (u :: us).map Entry.id))))
          ((data.eraseIdx j).filter
            (fun e => !(decide (e.id ∈ (u :: us).map Entry.id)))) := by
        have := hpermj.filter (fun e => !(decide (e.id ∈ (u :: us).map Entry.id)))
        rw [List.filter_cons] at this
        have hDj2 : data[j].id = u.id := hDj
        have hdrop : (!(decide ((data.get ⟨j, hjlt⟩).id ∈ (u :: us).map Entry.id))) = false := by
          simp [List.get_eq_getElem, hDj2, List.mem_cons]
        rw [hdrop] at this
        simpa using this
      exact step1.trans (hfilter_cong ▸ step2.symm)

/-- `insertSortedEntry` permutes the cons. -/
theorem insertSortedEntry_perm (e : Entry) (l : List Entry) :
    List.Perm (insertSortedEntry e l) (e :: l) := by
  induction l with
  | nil => exact List.Perm.refl _
  | cons x xs ih =>
    unfold insertSortedEntry
    by_cases h : e.dateTime < x.dateTime
    · rw [if_pos h]
    · rw [if_neg h]
      exact (ih.cons x).trans (List.Perm.swap _ _ _)

/-- `insertSortedEntry` preserves sortedness by `date_time`. -/
theorem insertSortedEntry_pairwise (e : Entry) (l : List Entry)
    (h : l.Pairwise (fun a b => a.dateTime ≤ b.dateTime)) :
    (insertSortedEntry e l).Pairwise (fun a b => a.dateTime ≤ b.dateTime) := by
  induction l with
  | nil => simp [insertSortedEntry]
  | cons x xs ih =>
    rw [List.pairwise_cons] at h
    obtain ⟨hx, hxs⟩ := h
    unfold insertSortedEntry
    by_cases hlt : e.dateTime < x.dateTime
    · rw [if_pos hlt, List.pairwise_cons]
      constructor
      · intro y hy
        rcases List.mem_cons.mp hy with rfl | hmem
        · exact le_of_lt hlt
        · exact le_trans (le_of_lt hlt) (hx y hmem)
      · rw [List.pairwise_cons]
        exact ⟨hx, hxs⟩
    · rw [if_neg hlt, List.pairwise_cons]
      constructor
      · intro y hy
        have hy' : y ∈ e :: xs := (insertSortedEntry_perm e xs).mem_iff.mp hy
        rcases List.mem_cons.mp hy' with rfl | hmem
        · exact le_of_not_lt hlt
        · exact hx y hmem
      · exact ih hxs

/-- The stable sort, with any accumulator, permutes accumulator ++ input. -/
theorem foldl_insert_perm (l : List Entry) :
    ∀ acc : List Entry,
      List.Perm (l.foldl (fun acc e => insertSortedEntry e acc) acc) (acc ++ l) := by
  induction l with
  | nil => intro acc; simp
  | cons e l ih =>
    intro acc
    have h1 := ih (insertSortedEntry e acc)
    have h2 : List.Perm (insertSortedEntry e acc ++ l) ((e :: acc) ++ l) :=
      (insertSortedEntry_perm e acc).append_right l
    have h3 : List.Perm ((e :: acc) ++ l) (acc ++ e :: l) := by
      simpa using List.perm_middle.symm
    exact (h1.trans h2).trans h3

/-- The stable sort is a permutation of its input. -/
theorem sortEntriesStable_perm (l : List Entry) :
    List.Perm (sortEntriesStable l) l := by
  simpa using foldl_insert_perm l []

/-- The stable sort, from any sorted accumulator, is sorted. -/
theorem foldl_insert_pairwise (l : List Entry) :
    ∀ acc : List Entry, acc.Pairwise (fun a b => a.dateTime ≤ b.dateTime) →
      (l.foldl (fun acc e => insertSortedEntry e acc) acc).Pairwise
        (fun a b => a.dateTime ≤ b.dateTime) := by
  induction l with
  | nil => intro acc h; exact h
  | cons e l ih =>
    intro acc h
    exact ih (insertSortedEntry e acc) (insertSortedEntry_pairwise e acc h)

/-- The stable sort is sorted by `date_time`. -/
theorem sortEntriesStable_pairwise (l : List Entry) :
    (sortEntriesStable l).Pairwise (fun a b => a.dateTime ≤ b.dateTime) :=
  foldl_insert_pairwise l [] (by simp)

/-- Two sorted permutations of each other with pairwise-distinct
`date_time`s are equal. -/
theorem eq_of_perm_of_sorted_nodup_dt (l₁ l₂ : List Entry)
    (hp : List.Perm l₁ l₂)
    (h₁ : l₁.Pairwise (fun a b => a.dateTime ≤ b.dateTime))
    (h₂ : l₂.Pairwise (fun a b => a.dateTime ≤ b.dateTime))
    (hnd : (l₁.map Entry.dateTime).Nodup) : l₁ = l₂ := by
  haveI : IsAntisymm Entry (fun a b => a.dateTime < b.dateTime) :=
    ⟨fun a b hab hba => absurd hba (not_lt.mpr (le_of_lt hab))⟩
  have hnd₂ : (l₂.map Entry.dateTime).Nodup := ((hp.map Entry.dateTime).nodup_iff).mp hnd
  have hne₁ : l₁.Pairwise (fun a b => a.dateTime ≠ b.dateTime) := by
    rw [List.Nodup, List.pairwise_map] at hnd
    exact hnd
  have hne₂ : l₂.Pairwise (fun a b => a.dateTime ≠ b.dateTime) := by
    rw [List.Nodup, List.pairwise_map] at hnd₂
    exact hnd₂
  have hs₁ : l₁.Pairwise (fun a b => a.dateTime < b.dateTime) :=
    (h₁.and hne₁).imp (fun h => lt_of_le_of_ne h.1 h.2)
  have hs₂ : l₂.Pairwise (fun a b => a.dateTime < b.dateTime) :=
    (h₂.and hne₂).imp (fun h => lt_of_le_of_ne h.1 h.2)
  exact List.eq_of_perm_of_sorted hp hs₁ hs₂

/-- Normal form of `handleUpdate` for an update without created entries
whose updated ids are distinct and all present in the cache after the
delete pass: the delete pass is an order-preserving filter, and the update
pass matches every updated entry off (leaving the shared backing array of
the update list untouched) and re-adds the linked updated entries through
the stable sort. -/
theorem handleUpdate_normal_form (attrs : List Attribute) (upd : UpdateData Entry)
    (hcre : upd.created = []) (huids : (upd.updated.map Entry.id).Nodup)
    (l : List Entry) (hl : (l.map Entry.id).Nodup)
    (hpres : ∀ u ∈ upd.updated,
      ∃ e ∈ l.filter (fun e => !(decide (e.id ∈ upd.deleted))), e.id = u.id) :
    handleUpdateEntries attrs upd l =
      if upd.updated.length > 0 then
        sortEntriesStable ((goFilter (fun (u e : Entry) => u.id == e.id) upd.updated
            (l.filter (fun e => !(decide (e.id ∈ upd.deleted))))).2 ++
          linkAttributes attrs upd.updated)
      else l.filter (fun e => !(decide (e.id ∈ upd.deleted))) := by
  have hcre0 : ¬(upd.created.length > 0) := by rw [hcre]; simp
  have hdel : (if upd.deleted.length > 0
      then (goFilter (fun (e : Entry) (i : Int) => e.id == i) l upd.deleted).1 else l) =
      l.filter (fun e => !(decide (e.id ∈ upd.deleted))) := by
    by_cases hD : upd.deleted.length > 0
    · rw [if_pos hD]
      exact goFilter_deleted_fst l upd.deleted hl
    · rw [if_neg hD]
      have hDnil : upd.deleted = [] := by
        cases hDl : upd.deleted with
        | nil => rfl
        | cons a as => rw [hDl] at hD; simp at hD
      rw [hDnil]
      symm
      rw [List.filter_eq_self]
      intro a _
      simp
  have hlfids : ((l.filter (fun e => !(decide (e.id ∈ upd.deleted)))).map Entry.id).Nodup :=
    ((List.filter_sublist l).map Entry.id).nodup hl
  simp only [handleUpdateEntries, if_neg hcre0, hdel]
  by_cases hU : upd.updated.length > 0
  · rw [if_pos hU, if_pos hU]
    obtain ⟨hfst, _⟩ := goFilter_updated_all_match upd.updated
      (l.filter (fun e => !(decide (e.id ∈ upd.deleted)))) huids hlfids hpres
    rw [hfst]
    simp only [List.nil_append, List.length_nil, List.drop_zero, addAndSortWithoutLock]
  · rw [if_neg hU, if_neg hU]

/-- C4 counterexample: `apply_update` is NOT idempotent for updates
carrying created entries: `handleUpdate` appends created entries with no
id-collision detection, so applying the same single-creation update twice
to the empty cache yields a two-element cache instead of one. -/
theorem C4_counterexample :
    handleUpdateEntries []
        (⟨[], [], [], [mkEntry 1 attrDefault 100 100 (some false)]⟩ : UpdateData Entry)
        (handleUpdateEntries []
          (⟨[], [], [], [mkEntry 1 attrDefault 100 100 (some false)]⟩ : UpdateData Entry) []) ≠
      handleUpdateEntries []
        (⟨[], [], [], [mkEntry 1 attrDefault 100 100 (some false)]⟩ : UpdateData Entry) [] := by
  decide

/-- C4 amended: applying the same Update twice to the EntryCache yields the
same state as applying it once PROVIDED the update carries no created
entries — creations are appended with no id-collision detection, so they
are duplicated (see the counterexample) — and the usual regularity holds:
cache ids pairwise distinct, updated ids pairwise distinct, every updated
id present in the cache and not simultaneously deleted, and the
`date_time`s of the cached and updated entries pairwise distinct (with
ties, the swap-removals of `utils.Filter` may reorder equal-date entries
between the two applications). -/
theorem C4_apply_update_idempotent_without_creations
    (attrs : List Attribute) (upd : UpdateData Entry) (data : List Entry)
    (hcre : upd.created = [])
    (hids : (data.map Entry.id).Nodup)
    (huids : (upd.updated.map Entry.id).Nodup)
    (hpresent : ∀ u ∈ upd.updated, ∃ e ∈ data, e.id = u.id)
    (hnotdel : ∀ u ∈ upd.updated, u.id ∉ upd.deleted)
    (hdts : ((data ++ upd.updated).map Entry.dateTime).Nodup) :
    handleUpdateEntries attrs upd (handleUpdateEntries attrs upd data) =
      handleUpdateEntries attrs upd data := by
  have hdts3 : (data.map Entry.dateTime).Nodup ∧ (upd.updated.map Entry.dateTime).Nodup ∧
      List.Disjoint (data.map Entry.dateTime) (upd.updated.map Entry.dateTime) := by
    rw [List.map_append, List.nodup_append] at hdts
    exact hdts
  have hpres1 : ∀ u ∈ upd.updated,
      ∃ e ∈ data.filter (fun e => !(decide (e.id ∈ upd.deleted))), e.id = u.id := by
    intro u hu
    obtain ⟨e, he, hid⟩ := hpresent u hu
    refine ⟨e, List.mem_filter.mpr ⟨he, ?_⟩, hid⟩
    simp only [Bool.not_eq_true', decide_eq_false_iff_not]
    rw [hid]
    exact hnotdel u hu
  have hNF1 := handleUpdate_normal_form attrs upd hcre huids data hids hpres1
  by_cases hU : upd.updated.length > 0
  · -- the update carries updated entries
    rw [if_pos hU] at hNF1
    have hd1ids : ((data.filter (fun e => !(decide (e.id ∈ upd.deleted)))).map Entry.id).Nodup :=
      ((List.filter_sublist data).map Entry.id).nodup hids
    obtain ⟨hfst1, hsnd1⟩ := goFilter_updated_all_match upd.updated
      (data.filter (fun e => !(decide (e.id ∈ upd.deleted)))) huids hd1ids hpres1
    -- facts about the once-applied cache
    have hAperm : List.Perm (handleUpdateEntries attrs upd data)
        ((goFilter (fun (u e : Entry) => u.id == e.id) upd.updated
            (data.filter (fun e => !(decide (e.id ∈ upd.deleted))))).2 ++
          linkAttributes attrs upd.updated) := by
      rw [hNF1]
      exact sortEntriesStable_perm _
    have hApair : (handleUpdateEntries attrs upd data).Pairwise
        (fun a b => a.dateTime ≤ b.dateTime) := by
      rw [hNF1]
      exact sortEntriesStable_pairwise _
    have hfr2mem : ∀ e ∈ (goFilter (fun (u e : Entry) => u.id == e.id) upd.updated
        (data.filter (fun e => !(decide (e.id ∈ upd.deleted))))).2,
        e ∈ data ∧ e.id ∉ upd.deleted ∧ e.id ∉ upd.updated.map Entry.id := by
      intro e he
      have h1 := hsnd1.mem_iff.mp he
      have h2 := List.mem_filter.mp h1
      have h3 := List.mem_filter.mp h2.1
      refine ⟨h3.1, ?_, ?_⟩
      · have := h3.2
        simp only [Bool.not_eq_true', decide_eq_false_iff_not] at this
        exact this
      · have := h2.2
        simp only [Bool.not_eq_true', decide_eq_false_iff_not] at this
        exact this
    have hLUmem : ∀ e ∈ linkAttributes attrs upd.updated,
        e.id ∈ upd.updated.map Entry.id ∧ e.id ∉ upd.deleted := by
      intro e he
      obtain ⟨u, hu, rfl⟩ := List.mem_map.mp he
      rw [linkAttribute_id]
      exact ⟨List.mem_map_of_mem Entry.id hu, hnotdel u hu⟩
    have hfr2idsnodup : (((goFilter (fun (u e : Entry) => u.id == e.id) upd.updated
        (data.filter (fun e => !(decide (e.id ∈ upd.deleted))))).2).map Entry.id).Nodup := by
      rw [(hsnd1.map Entry.id).nodup_iff]
      exact (((List.filter_sublist _).trans (List.filter_sublist data)).map Entry.id).nodup hids
    have hAids : ((handleUpdateEntries attrs upd data).map Entry.id).Nodup := by
      rw [(hAperm.map Entry.id).nodup_iff, List.map_append, linkAttributes_map_id,
        List.nodup_append]
      refine ⟨hfr2idsnodup, huids, ?_⟩
      intro a ha hamem
      obtain ⟨e, he, rfl⟩ := List.mem_map.mp ha
      exact (hfr2mem e he).2.2 hamem
    have hAfilterD : (handleUpdateEntries attrs upd data).filter
        (fun e => !(decide (e.id ∈ upd.deleted))) = handleUpdateEntries attrs upd data := by
      rw [List.filter_eq_self]
      intro e he
      simp only [Bool.not_eq_true', decide_eq_false_iff_not]
      rcases List.mem_append.mp (hAperm.mem_iff.mp he) with h | h
      · exact (hfr2mem e h).2.1
      · exact (hLUmem e h).2
    have hpres2 : ∀ u ∈ upd.updated,
        ∃ e ∈ (handleUpdateEntries attrs upd data).filter
          (fun e => !(decide (e.id ∈ upd.deleted))), e.id = u.id := by
      intro u hu
      refine ⟨linkAttribute attrs u, ?_, linkAttribute_id attrs u⟩
      rw [hAfilterD]
      exact hAperm.mem_iff.mpr (List.mem_append.mpr (Or.inr (List.mem_map_of_mem _ hu)))
    have hAfids : (((handleUpdateEntries attrs upd data).filter
        (fun e => !(decide (e.id ∈ upd.deleted)))).map Entry.id).Nodup := by
      rw [hAfilterD]
      exact hAids
    obtain ⟨hfst2, hsnd2⟩ := goFilter_updated_all_match upd.updated
      ((handleUpdateEntries attrs upd data).filter
        (fun e => !(decide (e.id ∈ upd.deleted)))) huids hAfids hpres2
    have hNF2 := handleUpdate_normal_form attrs upd hcre huids
      (handleUpdateEntries attrs upd data) hAids hpres2
    rw [if_pos hU] at hNF2
    rw [hNF2]
    -- the permutation between the re-filtered remainder of the second round
    -- and the remainder of the first round
    have hfr2filter : (goFilter (fun (u e : Entry) => u.id == e.id) upd.updated
          (data.filter (fun e => !(decide (e.id ∈ upd.deleted))))).2.filter
          (fun e => !(decide (e.id ∈ upd.updated.map Entry.id))) =
        (goFilter (fun (u e : Entry) => u.id == e.id) upd.updated
          (data.filter (fun e => !(decide (e.id ∈ upd.deleted))))).2 := by
      rw [List.filter_eq_self]
      intro e he
      simp only [Bool.not_eq_true', decide_eq_false_iff_not]
      exact (hfr2mem e he).2.2
    have hLUfilter : (linkAttributes attrs upd.updated).filter
        (fun e => !(decide (e.id ∈ upd.updated.map Entry.id))) = [] := by
      rw [List.filter_eq_nil_iff]
      intro e he
      simp only [Bool.not_eq_true', decide_eq_false_iff_not, not_not]
      exact (hLUmem e he).1
    have hsnd2' : List.Perm (goFilter (fun (u e : Entry) => u.id == e.id) upd.updated
          ((handleUpdateEntries attrs upd data).filter
            (fun e => !(decide (e.id ∈ upd.deleted))))).2
        (goFilter (fun (u e : Entry) => u.id == e.id) upd.updated
          (data.filter (fun e => !(decide (e.id ∈ upd.deleted))))).2 := by
      refine hsnd2.trans ?_
      rw [hAfilterD]
      have step := hAperm.filter (fun e => !(decide (e.id ∈ upd.updated.map Entry.id)))
      rw [List.filter_append, hfr2filter, hLUfilter, List.append_nil] at step
      exact step
    -- assemble: both sides are stable sorts of permuted inputs with
    -- pairwise-distinct date_times
    apply eq_of_perm_of_sorted_nodup_dt
    · refine (sortEntriesStable_perm _).trans ?_
      refine (hsnd2'.append_right _).trans ?_
      rw [hNF1]
      exact (sortEntriesStable_perm _).symm
    · exact sortEntriesStable_pairwise _
    · exact hApair
    · -- distinct date_times in the second-round sort
      have hmapdt : List.Perm ((sortEntriesStable
          ((goFilter (fun (u e : Entry) => u.id == e.id) upd.updated
            ((handleUpdateEntries attrs upd data).filter
              (fun e => !(decide (e.id ∈ upd.deleted))))).2 ++
            linkAttributes attrs upd.updated)).map Entry.dateTime)
          (((goFilter (fun (u e : Entry) => u.id == e.id) upd.updated
            (data.filter (fun e => !(decide (e.id ∈ upd.deleted))))).2).map Entry.dateTime ++
            upd.updated.map Entry.dateTime) := by
        have h1 := (sortEntriesStable_perm
          ((goFilter (fun (u e : Entry) => u.id == e.id) upd.updated
            ((handleUpdateEntries attrs upd data).filter
              (fun e => !(decide (e.id ∈ upd.deleted))))).2 ++
            linkAttributes attrs upd.updated)).map Entry.dateTime
        rw [List.map_append, linkAttributes_map_dateTime] at h1
        exact h1.trans ((hsnd2'.map Entry.dateTime).append_right _)
      rw [hmapdt.nodup_iff, List.nodup_append]
      have hfr2dtsub : ∀ t ∈ ((goFilter (fun (u e : Entry) => u.id == e.id) upd.updated
          (data.filter (fun e => !(decide (e.id ∈ upd.deleted))))).2).map Entry.dateTime,
          t ∈ data.map Entry.dateTime := by
        intro t ht
        obtain ⟨e, he, rfl⟩ := List.mem_map.mp ht
        exact List.mem_map_of_mem Entry.dateTime (hfr2mem e he).1
      refine ⟨?_, hdts3.2.1, ?_⟩
      · rw [(hsnd1.map Entry.dateTime).nodup_iff]
        exact (((List.filter_sublist _).trans
          (List.filter_sublist data)).map Entry.dateTime).nodup hdts3.1
      · intro t ht htU
        exact hdts3.2.2 (hfr2dtsub t ht) htU
  · -- no updated entries: both rounds are the pure deletion filter
    rw [if_neg hU] at hNF1
    have hAids : ((handleUpdateEntries attrs upd data).map Entry.id).Nodup := by
      rw [hNF1]
      exact ((List.filter_sublist data).map Entry.id).nodup hids
    have hpres2 : ∀ u ∈ upd.updated,
        ∃ e ∈ (handleUpdateEntries attrs upd data).filter
          (fun e => !(decide (e.id ∈ upd.deleted))), e.id = u.id := by
      intro u hu
      exact absurd (List.length_pos.mpr (List.ne_nil_of_mem hu)) hU
    have hNF2 := handleUpdate_normal_form attrs upd hcre huids
      (handleUpdateEntries attrs upd data) hAids hpres2
    rw [if_neg hU] at hNF2
    rw [hNF2, hNF1, List.filter_filter]
    apply List.filter_congr
    intro e _
    simp

/-- Witness for C4 at a concrete input: an update that deletes id 1 and
rewrites id 2 applied twice to a two-entry cache equals the single
application. -/
theorem C4_apply_update_idempotent_witness :
    handleUpdateEntries [attrDefault]
        (⟨[1], [], [mkEntry 2 (attrStub 1) 400 400 (some false)], []⟩ : UpdateData Entry)
        (handleUpdateEntries [attrDefault]
          (⟨[1], [], [mkEntry 2 (attrStub 1) 400 400 (some false)], []⟩ : UpdateData Entry)
          [mkEntry 1 attrDefault 100 100 (some false),
           mkEntry 2 attrDefault 200 200 (some false)]) =
      handleUpdateEntries [attrDefault]
        (⟨[1], [], [mkEntry 2 (attrStub 1) 400 400 (some false)], []⟩ : UpdateData Entry)
        [mkEntry 1 attrDefault 100 100 (some false),
         mkEntry 2 attrDefault 200 200 (some false)] :=
  C4_apply_update_idempotent_without_creations [attrDefault]
    (⟨[1], [], [mkEntry 2 (attrStub 1) 400 400 (some false)], []⟩ : UpdateData Entry)
    [mkEntry 1 attrDefault 100 100 (some false),
     mkEntry 2 attrDefault 200 200 (some false)]
    rfl (by decide) (by decide) (by decide) (by decide) (by decide)

end RPdb
